import Mathlib

/-!
Shallow embedding of the batched LLM-driven structured-data generation
pipeline of `synthetic-financial-data-generator`:

* `validate_records` embeds `BaseGenerator._validate_records`
  (src/generators/base_generator.py, lines 101-125);
* `generate_in_batches` embeds `BaseGenerator._generate_in_batches`
  (lines 51-99), with the LLM call modelled as an oracle function;
* `add_metadata` embeds `BaseGenerator.add_metadata` (lines 177-194) over a
  small model of a pandas DataFrame;
* `calculate_completeness` and `calculate_validity` embed the metric
  computations of `MetricsCalculator` (src/utils/metrics_calculator.py).
-/

/-- A JSON scalar value, as produced by `generate_json`. -/
inductive JVal where
  | null : JVal
  | num : ℚ → JVal
  | str : String → JVal
  | bool : Bool → JVal
deriving DecidableEq, Repr

/-- A raw record: an ordered mapping from field name to scalar value
(a Python `dict` coming out of `json.loads`). -/
abbrev JRecord := List (String × JVal)

/-- The key set of a record (`record.keys()`). -/
def jkeys (r : JRecord) : List String := r.map Prod.fst

/-- Python `key in record`: dictionary key membership. -/
def hasKey (r : JRecord) (k : String) : Bool := (jkeys r).contains k

/-- Embedding of `BaseGenerator._validate_records` (base_generator.py,
lines 101-125): empty input yields empty output; otherwise
`required_fields = set(records[0].keys())` and a record is kept iff
`all(key in record for key in required_fields)`. -/
def validate_records (records : List JRecord) : List JRecord :=
  match records with
  | [] => []
  | r0 :: _ =>
      records.filter (fun r => (jkeys r0).all (fun k => hasKey r k))

theorem validate_records_nil : validate_records [] = [] := rfl

theorem validate_records_cons (r0 : JRecord) (rs : List JRecord) :
    validate_records (r0 :: rs) =
      (r0 :: rs).filter (fun r => (jkeys r0).all (fun k => hasKey r k)) := rfl

/-- The reference record always passes its own schema check. -/
theorem self_passes (r0 : JRecord) :
    ((jkeys r0).all (fun k => hasKey r0 k)) = true := by
  simp [hasKey, List.all_eq_true, List.contains, List.elem_iff]

/-- A record whose keys include all reference keys passes the check. -/
theorem all_hasKey_of_subset {r0 r : JRecord}
    (h : ∀ x ∈ jkeys r0, x ∈ jkeys r) :
    ((jkeys r0).all (fun k => hasKey r k)) = true := by
  simp only [List.all_eq_true, hasKey, List.contains, List.elem_iff]
  exact h

/-- A record missing some reference key fails the check. -/
theorem all_hasKey_eq_false {r0 r : JRecord} {k : String}
    (hk : k ∈ jkeys r0) (hr : k ∉ jkeys r) :
    ((jkeys r0).all (fun k => hasKey r k)) = false := by
  simp only [List.all_eq_false, hasKey, List.contains]
  exact ⟨k, hk, by simpa [List.elem_iff] using hr⟩

/-- The subset criterion is preserved verbatim by a second validation pass,
since the head (hence the reference record) of the output is the input's
head. -/
theorem validate_records_cons_eq (r0 : JRecord) (rs : List JRecord) :
    validate_records (r0 :: rs) =
      r0 :: rs.filter (fun r => (jkeys r0).all (fun k => hasKey r k)) := by
  rw [validate_records_cons, List.filter_cons, self_passes]
  simp

/-- C2 (amended): every record kept by `_validate_records` has a key set
that is a SUPERSET of the key set of the first input record; it need not be
identical. -/
theorem claim_C2_superset (r0 r : JRecord) (rs : List JRecord)
    (hr : r ∈ validate_records (r0 :: rs)) :
    ∀ k ∈ jkeys r0, k ∈ jkeys r := by
  rw [validate_records_cons] at hr
  have hp := (List.mem_filter.mp hr).2
  simpa only [List.all_eq_true, hasKey, List.contains, List.elem_iff] using hp

/-- C2 witness: a concrete application of `claim_C2_superset` — the kept
record `{a:1, b:2}` carries the reference key `a`. -/
theorem claim_C2_superset_witness :
    "a" ∈ jkeys [("a", JVal.num 1), ("b", JVal.num 2)] :=
  claim_C2_superset [("a", JVal.num 1)] [("a", JVal.num 1), ("b", JVal.num 2)]
    [[("a", JVal.num 1), ("b", JVal.num 2)]] (by decide) "a" (by decide)

/-- C2 counterexample: on input `[{a:1}, {a:1,b:2}]` both records are kept,
and the second kept record's key set is not identical to the first record's
key set (it has the extra key `b`), refuting the claim as stated. -/
theorem claim_C2_counterexample :
    validate_records [[("a", JVal.num 1)], [("a", JVal.num 1), ("b", JVal.num 2)]] =
      [[("a", JVal.num 1)], [("a", JVal.num 1), ("b", JVal.num 2)]] ∧
    "b" ∈ jkeys [("a", JVal.num 1), ("b", JVal.num 2)] ∧
    "b" ∉ jkeys ([("a", JVal.num 1)] : JRecord) := by
  refine ⟨by decide, by decide, by decide⟩

/-- C3 (amended): given three records where `d` misses exactly the key `k`
present in the two full records `a`, `b` (which share one key set, a
superset of `d`'s), `_validate_records` returns exactly 2 records when the
deficient record is in position 1 or 2, but keeps all 3 records when the
deficient record is FIRST (it then defines the expected schema, and the two
full records are supersets of it). -/
theorem claim_C3_positions (a b d : JRecord) (k : String)
    (hab : ∀ x, x ∈ jkeys a ↔ x ∈ jkeys b)
    (hd : ∀ x ∈ jkeys d, x ∈ jkeys a)
    (hk : k ∈ jkeys a) (hkd : k ∉ jkeys d) :
    (validate_records [a, d, b]).length = 2 ∧
    (validate_records [a, b, d]).length = 2 ∧
    (validate_records [d, a, b]).length = 3 := by
  have hpa := self_passes a
  have hpd := self_passes d
  have hpb : ((jkeys a).all (fun x => hasKey b x)) = true :=
    all_hasKey_of_subset (fun x hx => (hab x).mp hx)
  have hfa : ((jkeys d).all (fun x => hasKey a x)) = true :=
    all_hasKey_of_subset hd
  have hfb : ((jkeys d).all (fun x => hasKey b x)) = true :=
    all_hasKey_of_subset (fun x hx => (hab x).mp (hd x hx))
  have hdm : ((jkeys a).all (fun x => hasKey d x)) = false :=
    all_hasKey_eq_false hk hkd
  refine ⟨?_, ?_, ?_⟩
  · rw [validate_records_cons]
    simp [List.filter_cons, hpa, hpb, hdm]
  · rw [validate_records_cons]
    simp [List.filter_cons, hpa, hpb, hdm]
  · rw [validate_records_cons]
    simp [List.filter_cons, hpd, hfa, hfb]

/-- C3 witness: a concrete application of `claim_C3_positions` with
`a = b = {x, y}` schema records and `d = {x}`. -/
theorem claim_C3_positions_witness :
    (validate_records [[("x", JVal.num 1), ("y", JVal.num 2)], [("x", JVal.num 5)],
        [("x", JVal.num 3), ("y", JVal.num 4)]]).length = 2 ∧
    (validate_records [[("x", JVal.num 1), ("y", JVal.num 2)],
        [("x", JVal.num 3), ("y", JVal.num 4)], [("x", JVal.num 5)]]).length = 2 ∧
    (validate_records [[("x", JVal.num 5)], [("x", JVal.num 1), ("y", JVal.num 2)],
        [("x", JVal.num 3), ("y", JVal.num 4)]]).length = 3 :=
  claim_C3_positions [("x", JVal.num 1), ("y", JVal.num 2)]
    [("x", JVal.num 3), ("y", JVal.num 4)] [("x", JVal.num 5)] "y"
    (fun _ => Iff.rfl)
    (by intro x hx; simp [jkeys] at hx ⊢; exact Or.inl hx)
    (by decide) (by decide)

/-- C3 counterexample: a 3-record batch `[{x}, {x,y}, {x,y}]` in which
exactly one record (the first) misses key `y` present in the other two;
`_validate_records` keeps all 3 records, not 2, refuting "regardless of the
position of the deficient record". -/
theorem claim_C3_counterexample :
    (validate_records [[("x", JVal.num 5)], [("x", JVal.num 1), ("y", JVal.num 2)],
        [("x", JVal.num 3), ("y", JVal.num 4)]]).length = 3 := by
  decide

/-- C7: `_validate_records` is idempotent — validating an already-validated
list returns it unchanged (same records, same order). -/
theorem claim_C7_idempotent (l : List JRecord) :
    validate_records (validate_records l) = validate_records l := by
  match l with
  | [] => rfl
  | r0 :: rs =>
    rw [validate_records_cons_eq r0 rs, validate_records_cons_eq r0, List.filter_filter]
    simp

/-- C8: on non-empty input, `_validate_records` returns a non-empty list
whose first element is the first input record (the reference record always
satisfies its own schema). -/
theorem claim_C8_head (r0 : JRecord) (rs : List JRecord) :
    (validate_records (r0 :: rs)).head? = some r0 ∧
    validate_records (r0 :: rs) ≠ [] := by
  rw [validate_records_cons_eq]
  exact ⟨rfl, by simp⟩

/-!
### Batch orchestrator

`BaseGenerator._generate_in_batches` (base_generator.py, lines 51-99).
The whole `try` body of one loop iteration — prompt formatting plus
`generate_json` — is modelled by an oracle `gen : Nat → ℤ → Option (List
JRecord)` mapping the batch index and the requested `records_in_batch`
(a Python integer, so ℤ: it may go negative if earlier batches
over-produced) to `some batch_data` on success and `none` when the body
raises.  The `if batch_data:` truthiness test skips extending on an empty
list.
-/

/-- `batches = (total_records + batch_size - 1) // batch_size`
(base_generator.py, line 71). -/
def planned_batches (total_records batch_size : Nat) : Nat :=
  (total_records + batch_size - 1) / batch_size

/-- One iteration of the batch loop (base_generator.py, lines 75-96). -/
def batchStep (gen : Nat → ℤ → Option (List JRecord))
    (total_records batch_size : Nat) (all_records : List JRecord) (i : Nat) :
    List JRecord :=
  let records_in_batch : ℤ :=
    min (batch_size : ℤ) ((total_records : ℤ) - (all_records.length : ℤ))
  match gen i records_in_batch with
  | some batch_data =>
      if batch_data.isEmpty then all_records else all_records ++ batch_data
  | none => all_records

/-- Embedding of `BaseGenerator._generate_in_batches` (base_generator.py,
lines 51-99). -/
def generate_in_batches (gen : Nat → ℤ → Option (List JRecord))
    (total_records : Nat) (batch_size : Nat) : List JRecord :=
  (List.range (planned_batches total_records batch_size)).foldl
    (batchStep gen total_records batch_size) []

/-- The per-batch contributions of the same run: `[]` for a failed batch,
the full `batch_data` for a successful one. -/
def batchContribs (gen : Nat → ℤ → Option (List JRecord))
    (total_records : Nat) (batch_size : Nat) : List (List JRecord) :=
  ((List.range (planned_batches total_records batch_size)).foldl
    (fun s i =>
      let records_in_batch : ℤ :=
        min (batch_size : ℤ) ((total_records : ℤ) - (s.1.length : ℤ))
      match gen i records_in_batch with
      | some batch_data =>
          ((if batch_data.isEmpty then s.1 else s.1 ++ batch_data),
            s.2 ++ [batch_data])
      | none => (s.1, s.2 ++ [[]]))
    ([], [])).2

theorem skip_empty_append (all bd : List JRecord) :
    (if bd.isEmpty then all else all ++ bd) = all ++ bd := by
  cases bd <;> simp

/-- The paired fold tracks the plain fold: its first component is the
accumulated record list and equals the join of the recorded contributions. -/
theorem foldl_contribs_spec (gen : Nat → ℤ → Option (List JRecord))
    (total_records batch_size : Nat) :
    ∀ (is : List Nat) (all : List JRecord) (out : List (List JRecord)),
      all = out.flatten →
      (is.foldl
        (fun s i =>
          let records_in_batch : ℤ :=
            min (batch_size : ℤ) ((total_records : ℤ) - (s.1.length : ℤ))
          match gen i records_in_batch with
          | some batch_data =>
              ((if batch_data.isEmpty then s.1 else s.1 ++ batch_data),
                s.2 ++ [batch_data])
          | none => (s.1, s.2 ++ [[]])) (all, out)).1 =
        is.foldl (batchStep gen total_records batch_size) all ∧
      (is.foldl
        (fun s i =>
          let records_in_batch : ℤ :=
            min (batch_size : ℤ) ((total_records : ℤ) - (s.1.length : ℤ))
          match gen i records_in_batch with
          | some batch_data =>
              ((if batch_data.isEmpty then s.1 else s.1 ++ batch_data),
                s.2 ++ [batch_data])
          | none => (s.1, s.2 ++ [[]])) (all, out)).2.flatten =
        is.foldl (batchStep gen total_records batch_size) all := by
  intro is
  induction is with
  | nil => intro all out h; simpa using h.symm
  | cons i is ih =>
    intro all out h
    simp only [List.foldl_cons]
    cases hg : gen i (min (batch_size : ℤ)
        ((total_records : ℤ) - (all.length : ℤ))) with
    | none =>
      have := ih all (out ++ [[]]) (by simp [h])
      simpa [batchStep, hg] using this
    | some bd =>
      have hstep : (if bd.isEmpty then all else all ++ bd) = all ++ bd :=
        skip_empty_append all bd
      have := ih (all ++ bd) (out ++ [bd]) (by simp [h])
      simp only [batchStep, hg, hstep] at this ⊢
      simpa [hg, hstep] using this

/-- Gen oracle that always yields exactly the requested number of records
(used as the C1 witness). -/
def exactGen : Nat → ℤ → Option (List JRecord) :=
  fun _ rib => some (List.replicate rib.toNat [("n", JVal.num 1)])

/-- Gen oracle that always fails (used as the C4 witness). -/
def failGen : Nat → ℤ → Option (List JRecord) :=
  fun _ _ => none

/-- Gen oracle that returns 7 records no matter how many were requested
(used inside C9). -/
def overGen : Nat → ℤ → Option (List JRecord) :=
  fun _ _ => some (List.replicate 7 [("n", JVal.num 1)])

/-- Loop invariant: when every batch yields exactly the number of records
it requested, after `n` iterations the accumulated length is
`min (n * batch_size) total_records`. -/
theorem length_foldl_exact (gen : Nat → ℤ → Option (List JRecord))
    (total_records batch_size : Nat)
    (hexact : ∀ i rib, 0 ≤ rib → ∃ l, gen i rib = some l ∧ (l.length : ℤ) = rib) :
    ∀ n : Nat,
      ((List.range n).foldl (batchStep gen total_records batch_size) []).length =
        min (n * batch_size) total_records := by
  intro n
  induction n with
  | zero => simp
  | succ n ih =>
    rw [List.range_succ, List.foldl_append, List.foldl_cons, List.foldl_nil]
    set L := (List.range n).foldl (batchStep gen total_records batch_size) [] with hL
    have hle : L.length ≤ total_records := by
      rw [ih]; exact Nat.min_le_right _ _
    have hnn : (0 : ℤ) ≤
        min (batch_size : ℤ) ((total_records : ℤ) - (L.length : ℤ)) := by
      refine le_min (by positivity) ?_
      have : (L.length : ℤ) ≤ (total_records : ℤ) := by exact_mod_cast hle
      omega
    obtain ⟨l, hgen, hlenl⟩ := hexact n _ hnn
    simp only [batchStep, hgen, skip_empty_append, List.length_append]
    rw [Nat.succ_mul]
    have ihm := ih
    generalize n * batch_size = m at ihm ⊢
    omega

/-- Nat fact: the planned batch count times the batch size covers
`total_records`. -/
theorem le_planned_mul (t b : Nat) (hb : 1 ≤ b) :
    t ≤ planned_batches t b * b := by
  unfold planned_batches
  have h1 := Nat.div_add_mod (t + b - 1) b
  have h2 : (t + b - 1) % b < b := Nat.mod_lt _ (by omega)
  rw [Nat.mul_comm]
  generalize hq : (t + b - 1) / b = q at h1 ⊢
  generalize hr : (t + b - 1) % b = r at h1 h2
  generalize hm : b * q = m at h1 ⊢
  omega

/-- Nat fact: one fewer batch would not cover `total_records`. -/
theorem planned_pred_mul_lt (t b : Nat) (ht : 1 ≤ t) (hb : 1 ≤ b) :
    (planned_batches t b - 1) * b < t := by
  unfold planned_batches
  have h1 := Nat.div_add_mod (t + b - 1) b
  have h2 : (t + b - 1) % b < b := Nat.mod_lt _ (by omega)
  rw [Nat.sub_mul, Nat.one_mul, Nat.mul_comm]
  generalize hq : (t + b - 1) / b = q at h1 ⊢
  generalize hr : (t + b - 1) % b = r at h1 h2
  generalize hm : b * q = m at h1 ⊢
  omega

theorem planned_pos (t b : Nat) (ht : 1 ≤ t) (hb : 1 ≤ b) :
    1 ≤ planned_batches t b :=
  (Nat.le_div_iff_mul_le hb).mpr (by omega)

/-- The planned batch count is the ceiling of `total_records / batch_size`. -/
theorem planned_eq_ceil (t b : Nat) (ht : 1 ≤ t) (hb : 1 ≤ b) :
    planned_batches t b = ⌈(t : ℚ) / (b : ℚ)⌉₊ := by
  have hb0 : (0 : ℚ) < (b : ℚ) := by exact_mod_cast hb
  have hne : planned_batches t b ≠ 0 := by
    have := planned_pos t b ht hb; omega
  refine ((Nat.ceil_eq_iff hne).mpr ⟨?_, ?_⟩).symm
  · rw [lt_div_iff₀ hb0]
    exact_mod_cast planned_pred_mul_lt t b ht hb
  · rw [div_le_iff₀ hb0]
    exact_mod_cast le_planned_mul t b hb

/-- C1: `_generate_in_batches` plans exactly `ceil(total_records /
batch_size)` batches (each requesting `min(batch_size, total_records -
collected)` records), and when every batch yields exactly the number of
records it requested, the total number of accumulated records — hence the
sum of `records_in_batch` over all batches — equals `total_records`
exactly, even when the last batch is smaller. -/
theorem claim_C1_batch_plan (gen : Nat → ℤ → Option (List JRecord))
    (total_records batch_size : Nat)
    (ht : 1 ≤ total_records) (hb : 1 ≤ batch_size)
    (hexact : ∀ i rib, 0 ≤ rib → ∃ l, gen i rib = some l ∧ (l.length : ℤ) = rib) :
    planned_batches total_records batch_size =
      ⌈(total_records : ℚ) / (batch_size : ℚ)⌉₊ ∧
    (generate_in_batches gen total_records batch_size).length = total_records := by
  refine ⟨planned_eq_ceil _ _ ht hb, ?_⟩
  rw [generate_in_batches, length_foldl_exact gen total_records batch_size hexact]
  have := le_planned_mul total_records batch_size hb
  omega

/-- C1 witness: `exactGen` yields exactly the requested count per batch;
25 records at batch size 10 plan 3 batches and return exactly 25 records. -/
theorem claim_C1_batch_plan_witness :
    planned_batches 25 10 = ⌈(25 : ℚ) / (10 : ℚ)⌉₊ ∧
    (generate_in_batches exactGen 25 10).length = 25 :=
  claim_C1_batch_plan exactGen 25 10 (by decide) (by decide)
    (fun i rib hrib =>
      ⟨List.replicate rib.toNat [("n", JVal.num 1)], rfl, by
        simp [Int.toNat_of_nonneg hrib]⟩)

/-- C4: if every per-batch call fails, `_generate_in_batches` returns the
empty list (and, being a total function of the oracle, never propagates the
batch errors). -/
theorem claim_C4_all_fail (gen : Nat → ℤ → Option (List JRecord))
    (total_records batch_size : Nat)
    (hfail : ∀ i rib, gen i rib = none) :
    generate_in_batches gen total_records batch_size = [] := by
  rw [generate_in_batches]
  generalize List.range (planned_batches total_records batch_size) = is
  induction is with
  | nil => rfl
  | cons i is ih =>
    rw [List.foldl_cons]
    have : batchStep gen total_records batch_size [] i = [] := by
      simp [batchStep, hfail]
    rw [this, ih]

/-- C4 witness: the always-failing oracle on 5 requested records with batch
size 2 yields the empty list. -/
theorem claim_C4_all_fail_witness :
    generate_in_batches failGen 5 2 = [] :=
  claim_C4_all_fail failGen 5 2 (fun _ _ => rfl)

/-- C9: `_generate_in_batches` never truncates a batch's output — the
returned list is exactly the concatenation, in batch order, of every
batch's recorded contribution (a failed batch contributes `[]`, a
successful one its full `generate_json` result); consequently, with an
oracle that returns 7 records for a request of 5 at batch size 10, the
returned count 7 exceeds `total_records = 5` (there is no cap). -/
theorem claim_C9_no_truncation :
    (∀ (gen : Nat → ℤ → Option (List JRecord)) (total_records batch_size : Nat),
      generate_in_batches gen total_records batch_size =
        (batchContribs gen total_records batch_size).flatten) ∧
    (generate_in_batches overGen 5 10).length = 7 ∧ 5 < 7 := by
  refine ⟨?_, by decide, by decide⟩
  intro gen total_records batch_size
  have h := (foldl_contribs_spec gen total_records batch_size
    (List.range (planned_batches total_records batch_size)) [] [] rfl).2
  rw [generate_in_batches, batchContribs, h]


/-!
### Dataset assembler: `add_metadata`

`BaseGenerator.add_metadata` (base_generator.py, lines 177-194) over a
small model of a pandas DataFrame.  A column has a name, a pandas dtype
summarised by whether `pd.api.types.is_numeric_dtype` holds, and one cell
per row.  `df[name] = scalar` broadcasts the scalar: it overwrites the
column in place when `name` already exists and appends a new column
otherwise; on a zero-row frame the new column has zero cells.
-/

/-- A DataFrame column. -/
structure Col where
  name : String
  numeric : Bool
  cells : List JVal
deriving DecidableEq, Repr

/-- A pandas DataFrame: a row count and an ordered list of named columns. -/
structure DataFrame where
  nrows : Nat
  cols : List Col
deriving DecidableEq, Repr

/-- `pd.DataFrame.empty`: true iff some axis has length 0. -/
def dfEmpty (df : DataFrame) : Bool :=
  df.nrows == 0 || df.cols.isEmpty

/-- Whether pandas infers a numeric dtype for a broadcast scalar
(`is_numeric_dtype` also holds for bool columns). -/
def scalarNumeric : JVal → Bool
  | JVal.num _ => true
  | JVal.bool _ => true
  | _ => false

/-- `df[name] = value` with a scalar right-hand side. -/
def setCol (df : DataFrame) (name : String) (v : JVal) : DataFrame :=
  if (df.cols.map Col.name).contains name then
    { df with cols := df.cols.map (fun c =>
        if c.name = name then ⟨c.name, scalarNumeric v, List.replicate df.nrows v⟩
        else c) }
  else
    { df with cols := df.cols ++ [⟨name, scalarNumeric v, List.replicate df.nrows v⟩] }

/-- Embedding of `BaseGenerator.add_metadata` (base_generator.py, lines
177-194): one `_meta_`-prefixed column per metadata tag, then
`_generated_at` (clock string) and `_generator` (the generator's domain). -/
def add_metadata (domain : String) (df : DataFrame)
    (metadata : List (String × JVal)) (now : String) : DataFrame :=
  setCol
    (setCol (metadata.foldl (fun d kv => setCol d ("_meta_" ++ kv.1) kv.2) df)
      "_generated_at" (JVal.str now))
    "_generator" (JVal.str domain)

theorem setCol_of_not_mem {df : DataFrame} {name : String} (v : JVal)
    (h : name ∉ df.cols.map Col.name) :
    setCol df name v =
      { df with cols := df.cols ++ [⟨name, scalarNumeric v, List.replicate df.nrows v⟩] } := by
  rw [setCol, if_neg]
  simp only [List.contains, List.elem_iff]
  exact h

theorem meta_name_inj {a b : String} (h : "_meta_" ++ a = "_meta_" ++ b) :
    a = b := by
  have hd := congrArg String.data h
  simp only [String.data_append] at hd
  exact String.ext (List.append_cancel_left hd)

theorem meta_ne_generated_at (a : String) : "_meta_" ++ a ≠ "_generated_at" := by
  intro h
  have hd := congrArg String.data h
  simp only [String.data_append] at hd
  simp at hd

theorem meta_ne_generator (a : String) : "_meta_" ++ a ≠ "_generator" := by
  intro h
  have hd := congrArg String.data h
  simp only [String.data_append] at hd
  simp at hd

/-- Folding the metadata assignments over fresh names appends one column
per tag and never touches the row count or the pre-existing columns. -/
theorem foldl_setCol_meta (md : List (String × JVal)) :
    ∀ df : DataFrame,
      (∀ kv ∈ md, ("_meta_" ++ kv.1) ∉ df.cols.map Col.name) →
      (md.map Prod.fst).Nodup →
      (md.foldl (fun d kv => setCol d ("_meta_" ++ kv.1) kv.2) df).nrows = df.nrows ∧
      (md.foldl (fun d kv => setCol d ("_meta_" ++ kv.1) kv.2) df).cols =
        df.cols ++ md.map (fun kv =>
          Col.mk ("_meta_" ++ kv.1) (scalarNumeric kv.2)
            (List.replicate df.nrows kv.2)) := by
  induction md with
  | nil => intro df _ _; simp
  | cons kv md ih =>
    intro df hfresh hnodup
    have hk : ("_meta_" ++ kv.1) ∉ df.cols.map Col.name :=
      hfresh kv (List.mem_cons_self kv md)
    rw [List.foldl_cons, setCol_of_not_mem kv.2 hk]
    have hfresh' : ∀ kv' ∈ md, ("_meta_" ++ kv'.1) ∉
        (df.cols ++ [Col.mk ("_meta_" ++ kv.1) (scalarNumeric kv.2)
          (List.replicate df.nrows kv.2)]).map Col.name := by
      intro kv' hkv'
      simp only [List.map_append, List.mem_append, List.map_cons, List.map_nil,
        List.mem_singleton, not_or]
      refine ⟨hfresh kv' (List.mem_cons_of_mem kv hkv'), ?_⟩
      intro hc
      have hne : kv'.1 ≠ kv.1 := by
        intro hq
        rcases List.nodup_cons.mp hnodup with ⟨hkn, _⟩
        exact hkn (hq ▸ List.mem_map_of_mem Prod.fst hkv')
      exact hne (meta_name_inj hc)
    have hnodup' : (md.map Prod.fst).Nodup := (List.nodup_cons.mp hnodup).2
    obtain ⟨hn, hc⟩ := ih { df with cols := df.cols ++
      [Col.mk ("_meta_" ++ kv.1) (scalarNumeric kv.2)
        (List.replicate df.nrows kv.2)] } hfresh' hnodup'
    constructor
    · simpa using hn
    · rw [hc]
      simp [List.append_assoc]

/-- C10 (amended): provided no pre-existing column is named `_meta_<tag>`
for a supplied tag, `_generated_at`, or `_generator` (tag names are unique,
being Python keyword arguments), `add_metadata` preserves the row count and
all pre-existing columns and appends exactly one `_meta_`-prefixed column
per tag plus the `_generated_at` and `_generator` columns; in particular on
the zero-row, zero-column frame the result has zero rows, is not
zero-column, and still tests as empty. -/
theorem claim_C10_metadata_columns (df : DataFrame)
    (metadata : List (String × JVal)) (now domain : String)
    (hfresh : ∀ kv ∈ metadata, ("_meta_" ++ kv.1) ∉ df.cols.map Col.name)
    (hga : "_generated_at" ∉ df.cols.map Col.name)
    (hgr : "_generator" ∉ df.cols.map Col.name)
    (hnodup : (metadata.map Prod.fst).Nodup) :
    (add_metadata domain df metadata now).nrows = df.nrows ∧
    (add_metadata domain df metadata now).cols =
      df.cols
        ++ metadata.map (fun kv =>
            Col.mk ("_meta_" ++ kv.1) (scalarNumeric kv.2)
              (List.replicate df.nrows kv.2))
        ++ [Col.mk "_generated_at" false (List.replicate df.nrows (JVal.str now)),
            Col.mk "_generator" false (List.replicate df.nrows (JVal.str domain))] ∧
    (df.nrows = 0 → (add_metadata domain df metadata now).cols ≠ [] ∧
      dfEmpty (add_metadata domain df metadata now) = true) := by
  obtain ⟨hn1, hc1⟩ := foldl_setCol_meta metadata df hfresh hnodup
  generalize hdf1 : metadata.foldl (fun d kv => setCol d ("_meta_" ++ kv.1) kv.2) df = df1
    at hn1 hc1
  have key : add_metadata domain df metadata now =
      ⟨df.nrows,
        df.cols
          ++ metadata.map (fun kv =>
              Col.mk ("_meta_" ++ kv.1) (scalarNumeric kv.2)
                (List.replicate df.nrows kv.2))
          ++ [Col.mk "_generated_at" false (List.replicate df.nrows (JVal.str now)),
              Col.mk "_generator" false (List.replicate df.nrows (JVal.str domain))]⟩ := by
    rw [add_metadata, hdf1]
    have hga1 : "_generated_at" ∉ df1.cols.map Col.name := by
      rw [hc1, List.map_append]
      intro hmem
      rcases List.mem_append.mp hmem with h | h
      · exact hga h
      · rw [List.map_map] at h
        rcases List.mem_map.mp h with ⟨kv, -, hkv⟩
        exact meta_ne_generated_at kv.1 hkv
    rw [setCol_of_not_mem (JVal.str now) hga1]
    have hgr2 : "_generator" ∉
        (df1.cols ++ [Col.mk "_generated_at" (scalarNumeric (JVal.str now))
          (List.replicate df1.nrows (JVal.str now))]).map Col.name := by
      rw [List.map_append]
      intro hmem
      rcases List.mem_append.mp hmem with h | h
      · rw [hc1, List.map_append] at h
        rcases List.mem_append.mp h with h' | h'
        · exact hgr h'
        · rw [List.map_map] at h'
          rcases List.mem_map.mp h' with ⟨kv, -, hkv⟩
          exact meta_ne_generator kv.1 hkv
      · simp at h
    rw [setCol_of_not_mem (JVal.str domain) hgr2]
    simp [hc1, hn1, scalarNumeric, List.append_assoc]
  refine ⟨by rw [key], by rw [key], ?_⟩
  intro h0
  constructor
  · rw [key]; simp
  · rw [dfEmpty, key]
    simp [h0]

/-- C10 witness: applying `claim_C10_metadata_columns` to the zero-row,
zero-column frame with the tag `domain = "banking"` — the result keeps zero
rows, gains exactly the three metadata columns (each with zero cells), and
still tests as empty. -/
theorem claim_C10_metadata_columns_witness :
    (add_metadata "Banking" ⟨0, []⟩ [("domain", JVal.str "banking")]
        "2025-01-01 00:00:00").nrows = 0 ∧
    (add_metadata "Banking" ⟨0, []⟩ [("domain", JVal.str "banking")]
        "2025-01-01 00:00:00").cols =
      [] ++ [Col.mk "_meta_domain" false []]
        ++ [Col.mk "_generated_at" false [], Col.mk "_generator" false []] ∧
    ((0 : Nat) = 0 →
      (add_metadata "Banking" ⟨0, []⟩ [("domain", JVal.str "banking")]
          "2025-01-01 00:00:00").cols ≠ [] ∧
      dfEmpty (add_metadata "Banking" ⟨0, []⟩ [("domain", JVal.str "banking")]
          "2025-01-01 00:00:00") = true) :=
  claim_C10_metadata_columns ⟨0, []⟩ [("domain", JVal.str "banking")]
    "2025-01-01 00:00:00" "Banking"
    (by simp) (by simp) (by simp) (by simp)

/-- C10 counterexample: if the input frame already has a column named
`_meta_domain` and the caller supplies the tag `domain`, the assignment
overwrites that column in place, so the result has 3 columns, not the
1 + 1 + 2 = 4 the claim predicts for a 1-column input with one tag. -/
theorem claim_C10_counterexample :
    (add_metadata "Banking"
        ⟨1, [Col.mk "_meta_domain" false [JVal.str "old"]]⟩
        [("domain", JVal.str "banking")] "2025-01-01 00:00:00").cols.length = 3 ∧
    (3 : Nat) ≠ 1 + 1 + 2 := by
  constructor
  · decide
  · decide

/-!
### Metrics Calculator

`MetricsCalculator` (src/utils/metrics_calculator.py).  Python's
`round(x, 2)` is modelled exactly on rationals as round-half-to-even at two
decimal places.
-/

/-- Round to the nearest integer, ties to even (Python `round` on exact
halves). -/
def roundHalfEven (q : ℚ) : ℤ :=
  let f := ⌊q⌋
  if q - f < 1 / 2 then f
  else if 1 / 2 < q - f then f + 1
  else if f % 2 = 0 then f else f + 1

/-- Python `round(x, 2)`. -/
def round2 (q : ℚ) : ℚ := (roundHalfEven (q * 100) : ℚ) / 100

theorem roundHalfEven_intCast (n : ℤ) : roundHalfEven (n : ℚ) = n := by
  rw [roundHalfEven]
  simp only [Int.floor_intCast]
  rw [if_pos]
  rw [sub_self]
  norm_num

theorem round2_intCast (n : ℤ) : round2 (n : ℚ) = n := by
  rw [round2]
  have h : (n : ℚ) * 100 = ((n * 100 : ℤ) : ℚ) := by push_cast; ring
  rw [h, roundHalfEven_intCast]
  push_cast
  ring

/-- Whether a cell is null (`pd.isnull`). -/
def isNull : JVal → Bool
  | JVal.null => true
  | _ => false

/-- `df[col].count()`: the number of non-null cells. -/
def countNonNull (cells : List JVal) : Nat :=
  (cells.filter (fun v => !(isNull v))).length

/-- Per-column completeness percentage
(metrics_calculator.py, lines 50-56):
`round((non_null / total) * 100, 2) if total > 0 else 0`. -/
def completeness_pct (nrows : Nat) (cells : List JVal) : ℚ :=
  if 0 < nrows then round2 (((countNonNull cells : ℚ) / (nrows : ℚ)) * 100)
  else 0

/-- The `by_column` part of `calculate_completeness`: for each column its
name, completeness percentage, and `null_count = total - non_null`. -/
def calculate_completeness_by_column (df : DataFrame) :
    List (String × ℚ × Nat) :=
  df.cols.map (fun c =>
    (c.name, completeness_pct df.nrows c.cells,
      df.nrows - countNonNull c.cells))

/-- `total_cells = df.shape[0] * df.shape[1]` (line 46). -/
def total_cells (df : DataFrame) : Nat := df.nrows * df.cols.length

/-- `null_cells = df.isnull().sum().sum()` (line 47). -/
def null_cells (df : DataFrame) : Nat :=
  (df.cols.map (fun c => (c.cells.filter isNull).length)).sum

/-- `overall_completeness_pct` (line 59):
`round(((total_cells - null_cells) / total_cells) * 100, 2) if total_cells > 0 else 0`. -/
def overall_completeness_pct (df : DataFrame) : ℚ :=
  if 0 < total_cells df then
    round2 ((((total_cells df : ℚ) - (null_cells df : ℚ)) / (total_cells df : ℚ)) * 100)
  else 0

theorem countNonNull_eq_zero {cells : List JVal}
    (h : ∀ x ∈ cells, x = JVal.null) : countNonNull cells = 0 := by
  rw [countNonNull, List.length_eq_zero]
  rw [List.filter_eq_nil_iff]
  intro x hx
  rw [h x hx]
  simp [isNull]

theorem countNonNull_eq_length {cells : List JVal}
    (h : ∀ x ∈ cells, x ≠ JVal.null) : countNonNull cells = cells.length := by
  rw [countNonNull]
  have : cells.filter (fun v => !(isNull v)) = cells := by
    rw [List.filter_eq_self]
    intro x hx
    have := h x hx
    cases x <;> simp [isNull] at this ⊢
  rw [this]

/-- C5: on a frame with at least one row, an all-null column is reported
with 0% per-column completeness (and `null_count` equal to the row count),
a no-null column is reported with 100% per-column completeness (and
`null_count = 0`); and any frame with zero cells reports an overall
completeness of 0 instead of dividing by zero. -/
theorem claim_C5_completeness (df df2 : DataFrame) (c : Col)
    (hr : 1 ≤ df.nrows) (hc : c ∈ df.cols) (hlen : c.cells.length = df.nrows) :
    ((∀ x ∈ c.cells, x = JVal.null) →
      (c.name, (0 : ℚ), df.nrows) ∈ calculate_completeness_by_column df) ∧
    ((∀ x ∈ c.cells, x ≠ JVal.null) →
      (c.name, (100 : ℚ), 0) ∈ calculate_completeness_by_column df) ∧
    (total_cells df2 = 0 → overall_completeness_pct df2 = 0) := by
  have hpos : 0 < df.nrows := hr
  have hq : ((df.nrows : ℚ)) ≠ 0 := by positivity
  refine ⟨?_, ?_, ?_⟩
  · intro hnull
    have h0 : countNonNull c.cells = 0 := countNonNull_eq_zero hnull
    have hpct : completeness_pct df.nrows c.cells = 0 := by
      rw [completeness_pct, if_pos hpos, h0]
      have : ((0 : Nat) : ℚ) / (df.nrows : ℚ) * 100 = ((0 : ℤ) : ℚ) := by
        push_cast; ring
      rw [this, round2_intCast]
      norm_num
    refine List.mem_map.mpr ⟨c, hc, ?_⟩
    rw [hpct, h0]
    simp
  · intro hfull
    have h0 : countNonNull c.cells = df.nrows := by
      rw [countNonNull_eq_length hfull, hlen]
    have hpct : completeness_pct df.nrows c.cells = 100 := by
      rw [completeness_pct, if_pos hpos, h0]
      have : ((df.nrows : Nat) : ℚ) / (df.nrows : ℚ) * 100 = ((100 : ℤ) : ℚ) := by
        field_simp
      rw [this, round2_intCast]
      norm_num
    refine List.mem_map.mpr ⟨c, hc, ?_⟩
    rw [hpct, h0]
    simp
  · intro h0
    rw [overall_completeness_pct, if_neg]
    omega

/-- C5 witness: a concrete application of `claim_C5_completeness` on a
one-row frame with an all-null column `a` and a no-null column `b`, and on
the zero-cell frame. -/
theorem claim_C5_completeness_witness :
    ("a", (0 : ℚ), 1) ∈ calculate_completeness_by_column
      ⟨1, [Col.mk "a" false [JVal.null], Col.mk "b" true [JVal.num 3]]⟩ ∧
    ("b", (100 : ℚ), 0) ∈ calculate_completeness_by_column
      ⟨1, [Col.mk "a" false [JVal.null], Col.mk "b" true [JVal.num 3]]⟩ ∧
    overall_completeness_pct ⟨0, []⟩ = 0 :=
  ⟨(claim_C5_completeness ⟨1, [Col.mk "a" false [JVal.null], Col.mk "b" true [JVal.num 3]]⟩
      ⟨0, []⟩ (Col.mk "a" false [JVal.null]) (by decide) (by simp) (by decide)).1
      (by decide),
   (claim_C5_completeness ⟨1, [Col.mk "a" false [JVal.null], Col.mk "b" true [JVal.num 3]]⟩
      ⟨0, []⟩ (Col.mk "b" true [JVal.num 3]) (by decide) (by simp) (by decide)).2.1
      (by decide),
   (claim_C5_completeness ⟨1, [Col.mk "a" false [JVal.null], Col.mk "b" true [JVal.num 3]]⟩
      ⟨0, []⟩ (Col.mk "a" false [JVal.null]) (by decide) (by simp) (by decide)).2.2
      (by decide)⟩

/-!
### Validity metrics (`calculate_validity`, metrics_calculator.py 84-120)

Per column: `col_data = df[col].dropna()`; a column with no non-null value
reports `valid_pct = 0` and no outlier fields; otherwise `valid_pct = 100`,
and a numeric-dtype column additionally reports the count and percentage of
values strictly outside the Tukey fences `Q1 - 3*IQR` / `Q3 + 3*IQR`, the
quartiles computed with pandas' linear interpolation on the sorted values.
-/

/-- Whether a cell holds a number. -/
def isNum : JVal → Bool
  | JVal.num _ => true
  | _ => false

/-- The numeric values of a column's cells. -/
def colNums (cells : List JVal) : List ℚ :=
  cells.filterMap (fun v => match v with | JVal.num q => some q | _ => none)

/-- `Series.quantile(q)` with the default linear interpolation: on the
ascending sort `s` of the values, position `pos = q * (n - 1)`, result
`s[⌊pos⌋] + (pos - ⌊pos⌋) * (s[⌊pos⌋ + 1] - s[⌊pos⌋])` (the upper index
clipped into range). -/
def quantile (l : List ℚ) (q : ℚ) : ℚ :=
  let s := List.insertionSort (· ≤ ·) l
  let pos := q * ((s.length : ℚ) - 1)
  let lo := (⌊pos⌋).toNat
  let a := s.getD lo 0
  let b := s.getD (lo + 1) a
  a + (pos - ((⌊pos⌋ : ℤ) : ℚ)) * (b - a)

/-- `lower_bound = q1 - 3 * iqr` (metrics_calculator.py, line 109). -/
def tukey_lower (l : List ℚ) : ℚ :=
  quantile l (1 / 4) - 3 * (quantile l (3 / 4) - quantile l (1 / 4))

/-- `upper_bound = q3 + 3 * iqr` (metrics_calculator.py, line 110). -/
def tukey_upper (l : List ℚ) : ℚ :=
  quantile l (3 / 4) + 3 * (quantile l (3 / 4) - quantile l (1 / 4))

/-- The per-column validity report: the dtype summary, `valid_pct`, and the
optional `(outlier_count, outlier_pct)` pair. -/
structure ValidityInfo where
  numericDtype : Bool
  valid_pct : ℚ
  outliers : Option (Nat × ℚ)
deriving DecidableEq, Repr

/-- Embedding of the per-column body of `calculate_validity`
(metrics_calculator.py, lines 88-116). -/
def validityCol (c : Col) : ValidityInfo :=
  let col_data := c.cells.filter (fun v => !(isNull v))
  if col_data.length = 0 then ⟨c.numeric, 0, none⟩
  else if c.numeric then
    let nums := colNums col_data
    let outlier_count :=
      (nums.filter (fun w =>
        decide (w < tukey_lower nums) || decide (tukey_upper nums < w))).length
    ⟨c.numeric, 100,
      some (outlier_count,
        round2 (((outlier_count : ℚ) / (col_data.length : ℚ)) * 100))⟩
  else ⟨c.numeric, 100, none⟩

/-- `calculate_validity`: the per-column map over the frame. -/
def calculate_validity (df : DataFrame) : List (String × ValidityInfo) :=
  df.cols.map (fun c => (c.name, validityCol c))

theorem mem_colNums {cells : List JVal} {x : ℚ} (hx : x ∈ colNums cells) :
    JVal.num x ∈ cells := by
  rw [colNums, List.mem_filterMap] at hx
  obtain ⟨a, ha, hfa⟩ := hx
  cases a <;> simp at hfa
  subst hfa
  exact ha

theorem colNums_filter_nonnull (cells : List JVal) :
    colNums (cells.filter (fun v => !(isNull v))) = colNums cells := by
  induction cells with
  | nil => rfl
  | cons x xs ih =>
    cases x <;>
      simp only [colNums, List.filter_cons, List.filterMap_cons, isNull,
        Bool.not_true, Bool.not_false, if_true, if_false] at ih ⊢ <;>
      simp [ih]

theorem length_filter_nonnull_of_typed (cells : List JVal)
    (h : ∀ x ∈ cells, isNull x = true ∨ isNum x = true) :
    (cells.filter (fun v => !(isNull v))).length = (colNums cells).length := by
  induction cells with
  | nil => rfl
  | cons x xs ih =>
    have hx := h x (List.mem_cons_self x xs)
    have hxs := ih (fun y hy => h y (List.mem_cons_of_mem x hy))
    cases x <;> simp [isNull, isNum] at hx ⊢ <;>
      simp [colNums, List.filter_cons, List.filterMap_cons, isNull] at hxs ⊢ <;>
      omega

/-- pandas' linear-interpolation quantile of a constant list is that
constant, for any `q` between 0 and 1. -/
theorem quantile_const {l : List ℚ} {v : ℚ} (hne : l ≠ [])
    (hall : ∀ x ∈ l, x = v) {q : ℚ} (h0 : 0 ≤ q) (h1 : q ≤ 1) :
    quantile l q = v := by
  simp only [quantile]
  have hperm := List.perm_insertionSort (· ≤ ·) l
  have hmem : ∀ x ∈ List.insertionSort (· ≤ ·) l, x = v :=
    fun x hx => hall x (hperm.mem_iff.mp hx)
  have hlen : (List.insertionSort (· ≤ ·) l).length = l.length := hperm.length_eq
  have hpos : 1 ≤ (List.insertionSort (· ≤ ·) l).length := by
    rw [hlen]
    exact List.length_pos.mpr hne
  set s := List.insertionSort (· ≤ ·) l with hs
  set pos := q * ((s.length : ℚ) - 1) with hposdef
  have hn1 : (1 : ℚ) ≤ (s.length : ℚ) := by exact_mod_cast hpos
  have hp0 : 0 ≤ pos := by
    apply mul_nonneg h0
    linarith
  have hp1 : pos ≤ (s.length : ℚ) - 1 := by
    rw [hposdef]
    exact mul_le_of_le_one_left (by linarith) h1
  have hfl0 : 0 ≤ ⌊pos⌋ := Int.floor_nonneg.mpr hp0
  have hflle : ⌊pos⌋ ≤ (s.length : ℤ) - 1 := by
    have h2 : ((s.length : ℤ) : ℚ) - 1 = (((s.length : ℤ) - 1 : ℤ) : ℚ) := by
      push_cast; ring
    have h3 := Int.floor_mono hp1
    rw [show ((s.length : ℚ) - 1) = (((s.length : ℤ) - 1 : ℤ) : ℚ) by push_cast; ring,
      Int.floor_intCast] at h3
    exact h3
  have hlt : (⌊pos⌋).toNat < s.length := by omega
  have ha : s.getD (⌊pos⌋).toNat 0 = v := by
    rw [List.getD_eq_getElem?_getD, List.getElem?_eq_getElem hlt]
    exact hmem _ (List.getElem_mem hlt)
  have hb : s.getD ((⌊pos⌋).toNat + 1) (s.getD (⌊pos⌋).toNat 0) = v := by
    by_cases hlt2 : (⌊pos⌋).toNat + 1 < s.length
    · rw [List.getD_eq_getElem?_getD, List.getElem?_eq_getElem hlt2]
      exact hmem _ (List.getElem_mem hlt2)
    · rw [List.getD_eq_getElem?_getD, List.getElem?_eq_none (by omega)]
      simpa using ha
  rw [ha] at hb ⊢
  rw [hb]
  ring

theorem round2_zero : round2 0 = 0 := by
  simpa using round2_intCast 0

/-- A numeric column with at least one non-null value reports 100% validity
together with the Tukey-fence outlier count and percentage. -/
theorem validityCol_numeric_eq (c : Col) (hnum : c.numeric = true)
    (hlen0 : (c.cells.filter (fun v => !(isNull v))).length ≠ 0) :
    validityCol c = ⟨c.numeric, 100,
      some (((colNums c.cells).filter (fun w =>
          decide (w < tukey_lower (colNums c.cells)) ||
          decide (tukey_upper (colNums c.cells) < w))).length,
        round2 (((((colNums c.cells).filter (fun w =>
            decide (w < tukey_lower (colNums c.cells)) ||
            decide (tukey_upper (colNums c.cells) < w))).length : ℚ) /
          ((c.cells.filter (fun v => !(isNull v))).length : ℚ)) * 100))⟩ := by
  simp only [validityCol]
  rw [colNums_filter_nonnull]
  rw [if_neg hlen0, if_pos hnum]

/-- C6 (amended): a column with no non-null value is reported with 0%
validity and no outlier fields (whatever its dtype); a non-numeric column
with at least one non-null value is reported with 100% validity and no
outlier fields; a numeric column with at least one non-null value is
reported with 100% validity and an outlier count equal to the number of its
non-null values strictly outside `[Q1 - 3*IQR, Q3 + 3*IQR]`; and a numeric
column whose non-null values are all equal (IQR = 0) reports outlier count
0 (with 0% outlier percentage). -/
theorem claim_C6_validity (c : Col) (v : ℚ) :
    ((∀ x ∈ c.cells, isNull x = true) →
      validityCol c = ⟨c.numeric, 0, none⟩) ∧
    (c.numeric = false → (∃ x ∈ c.cells, isNull x = false) →
      validityCol c = ⟨false, 100, none⟩) ∧
    (c.numeric = true → (∀ x ∈ c.cells, isNull x = true ∨ isNum x = true) →
      colNums c.cells ≠ [] →
      (validityCol c).valid_pct = 100 ∧
      ∃ p, (validityCol c).outliers =
        some (((colNums c.cells).filter (fun w =>
            decide (w < tukey_lower (colNums c.cells)) ||
            decide (tukey_upper (colNums c.cells) < w))).length, p)) ∧
    (c.numeric = true → (∀ x ∈ c.cells, x = JVal.null ∨ x = JVal.num v) →
      colNums c.cells ≠ [] →
      (validityCol c).outliers = some (0, 0)) := by
  refine ⟨?_, ?_, ?_, ?_⟩
  · intro hnull
    have hfe : c.cells.filter (fun w => !(isNull w)) = [] := by
      rw [List.filter_eq_nil_iff]
      intro x hx
      simp [hnull x hx]
    simp only [validityCol, hfe]
    simp
  · intro hnum hex
    obtain ⟨x, hx, hxn⟩ := hex
    have hmemf : x ∈ c.cells.filter (fun w => !(isNull w)) :=
      List.mem_filter.mpr ⟨hx, by simp [hxn]⟩
    have hlen0 : (c.cells.filter (fun w => !(isNull w))).length ≠ 0 := by
      have := List.length_pos.mpr (List.ne_nil_of_mem hmemf)
      omega
    simp only [validityCol]
    rw [if_neg hlen0]
    simp [hnum]
  · intro hnum htyped hnumsne
    have hlen0 : (c.cells.filter (fun w => !(isNull w))).length ≠ 0 := by
      rw [length_filter_nonnull_of_typed c.cells htyped]
      have := List.length_pos.mpr hnumsne
      omega
    rw [validityCol_numeric_eq c hnum hlen0]
    exact ⟨rfl, _, rfl⟩
  · intro hnum hcv hnumsne
    have htyped : ∀ x ∈ c.cells, isNull x = true ∨ isNum x = true := by
      intro x hx
      rcases hcv x hx with h | h <;> subst h <;> simp [isNull, isNum]
    have hlen0 : (c.cells.filter (fun w => !(isNull w))).length ≠ 0 := by
      rw [length_filter_nonnull_of_typed c.cells htyped]
      have := List.length_pos.mpr hnumsne
      omega
    have hallv : ∀ x ∈ colNums c.cells, x = v := by
      intro x hx
      rcases hcv (JVal.num x) (mem_colNums hx) with h | h
      · simp at h
      · simpa using h
    have hq1 : quantile (colNums c.cells) (1 / 4) = v :=
      quantile_const hnumsne hallv (by norm_num) (by norm_num)
    have hq3 : quantile (colNums c.cells) (3 / 4) = v :=
      quantile_const hnumsne hallv (by norm_num) (by norm_num)
    have htl : tukey_lower (colNums c.cells) = v := by
      rw [tukey_lower, hq1, hq3]; ring
    have htu : tukey_upper (colNums c.cells) = v := by
      rw [tukey_upper, hq1, hq3]; ring
    have hfilt : (colNums c.cells).filter (fun w =>
        decide (w < tukey_lower (colNums c.cells)) ||
        decide (tukey_upper (colNums c.cells) < w)) = [] := by
      rw [List.filter_eq_nil_iff]
      intro x hx
      rw [htl, htu, hallv x hx]
      simp
    rw [validityCol_numeric_eq c hnum hlen0, hfilt]
    simp [round2_zero]

/-- C6 witness: concrete applications of `claim_C6_validity` — an all-null
numeric column reports 0% validity and no outlier fields; a non-numeric
column with a value reports 100% and no outlier fields; a numeric column
with constant non-null values reports 100% validity and outlier count 0
with 0% outlier percentage. -/
theorem claim_C6_validity_witness :
    validityCol (Col.mk "z" true [JVal.null]) = ⟨true, 0, none⟩ ∧
    validityCol (Col.mk "cat" false [JVal.str "x"]) = ⟨false, 100, none⟩ ∧
    ((validityCol (Col.mk "amt" true [JVal.num 5, JVal.null, JVal.num 5])).valid_pct = 100 ∧
      ∃ p, (validityCol (Col.mk "amt" true [JVal.num 5, JVal.null, JVal.num 5])).outliers =
        some (((colNums [JVal.num 5, JVal.null, JVal.num 5]).filter (fun w =>
            decide (w < tukey_lower (colNums [JVal.num 5, JVal.null, JVal.num 5])) ||
            decide (tukey_upper (colNums [JVal.num 5, JVal.null, JVal.num 5]) < w))).length,
          p)) ∧
    (validityCol (Col.mk "amt" true [JVal.num 5, JVal.null, JVal.num 5])).outliers =
      some (0, 0) :=
  ⟨(claim_C6_validity (Col.mk "z" true [JVal.null]) 0).1 (by decide),
   (claim_C6_validity (Col.mk "cat" false [JVal.str "x"]) 0).2.1 rfl (by decide),
   (claim_C6_validity (Col.mk "amt" true [JVal.num 5, JVal.null, JVal.num 5]) 5).2.2.1
     rfl (by decide) (by decide),
   (claim_C6_validity (Col.mk "amt" true [JVal.num 5, JVal.null, JVal.num 5]) 5).2.2.2
     rfl (by decide) (by decide)⟩

/-- C6 counterexample: a non-numeric column whose only cell is null is
reported with 0% validity, not the 100% the claim asserts for every
non-numeric column. -/
theorem claim_C6_counterexample :
    (validityCol (Col.mk "note" false [JVal.null])).valid_pct = 0 ∧
    (validityCol (Col.mk "note" false [JVal.null])).valid_pct ≠ 100 := by
  refine ⟨by decide, by decide⟩
